import Mathlib

/-!
Verification of the protoserv TCP server framework against its
natural-language specification.  The definitions below are a shallow
embedding of the C++ sources: byte buffers become `List Nat` (each
element a byte value), machine integers become `Nat`/`Int` with
explicit truncation where the source truncates, and the asynchronous
session machinery becomes explicit state passing with an emitted
event list.
-/

namespace Protoserv

/-! ## Wire framing (basic_session.hpp)

The read side reinterprets two consecutive bytes as a little-endian
`uint16_t` (the source casts the buffer pointer to `uint16_t*` on a
little-endian machine). -/

/-- Value of a little-endian 16-bit word with low byte `lo` and high byte `hi`. -/
def u16le (lo hi : Nat) : Nat := lo + 256 * hi

/-- Read the little-endian 16-bit word stored at offset `pos` of the buffer,
mirroring `reinterpret_cast<uint16_t*>(buf)` reads in `parse_read_buffer`. -/
def u16at (bytes : List Nat) (pos : Nat) : Nat :=
  u16le (bytes.getD pos 0) (bytes.getD (pos + 1) 0)

/-- Embedding of `protoserv::Message` (message.hpp): `type` and `size` are
C++ `int`s, `size` is computed by `int` arithmetic and may be negative. -/
structure Message where
  type : Nat
  size : Int
  data : List Nat
deriving Repr, DecidableEq

/-- Embedding of `protobuf_packet::handle_message` applied to the header at
offset `pos`: `type = header[1]`, `size = header[0] - 4` (C++ `int`
arithmetic), `data = &header[2]` with `size` payload bytes. -/
def handleMessage (bytes : List Nat) (pos : Nat) : Message :=
  let sz := u16at bytes pos
  { type := u16at bytes (pos + 2)
    size := (sz : Int) - 4
    data := (bytes.drop (pos + 4)).take (sz - 4) }

/-- Embedding of the `while` loop of `basic_session::parse_read_buffer`.
The C++ loop is unbounded; `fuel` counts loop iterations we are willing to
execute and `none` means the loop was still running when the fuel ran out.
State: cursor `pos` into `bytes`, accumulated delivered messages `acc`.
One iteration: if at least 4 readable bytes remain, read `messageSize`;
if `messageSize` bytes are available, deliver the frame and advance the
cursor by `messageSize`, else exit; the result is the delivered messages
together with the final cursor (the count of consumed bytes). -/
def parseLoop : Nat → List Nat → Nat → List Message → Option (List Message × Nat)
  | 0, _, _, _ => none
  | fuel + 1, bytes, pos, acc =>
    if 4 ≤ bytes.length - pos then
      let sz := u16at bytes pos
      if sz ≤ bytes.length - pos then
        parseLoop fuel bytes (pos + sz) (acc ++ [handleMessage bytes pos])
      else
        some (acc, pos)
    else
      some (acc, pos)

/-- Embedding of `basic_session::parse_read_buffer` on a readable region
`bytes`: run the loop (with enough fuel for every terminating execution),
then `readbuf_.erase(buf - beg)` leaves the suffix after the consumed
bytes.  Returns delivered messages, the remaining readable region and the
number of consumed bytes; `none` when the source loop does not terminate
within `length + 1` iterations. -/
def parseReadBuffer (bytes : List Nat) : Option (List Message × List Nat × Nat) :=
  match parseLoop (bytes.length + 1) bytes 0 [] with
  | some (msgs, pos) => some (msgs, bytes.drop pos, pos)
  | none => none

/-- Termination of the source parse loop on buffer content `bytes`: some
finite iteration count makes the loop reach its exit. -/
def ParseTerminates (bytes : List Nat) : Prop :=
  ∃ fuel, (parseLoop fuel bytes 0 []).isSome

/-- Embedding of `protobuf_packet::send`: the frame is the 16-bit
little-endian total length (`payload length + 4`), the 16-bit
little-endian tag, then the payload.  The source asserts
`size ≤ 65535` and stores `size` and `messageType` as `uint16_t`. -/
def encodeFrame (tag : Nat) (payload : List Nat) : List Nat :=
  let size := (payload.length + 4) % 65536
  let t := tag % 65536
  [size % 256, size / 256, t % 256, t / 256] ++ payload

/-- Buffers in which no reachable 16-bit frame header is zero; excluding the
zero header is exactly what the nonterminating input forces. -/
def NoZeroHeader (bytes : List Nat) : Prop :=
  ∀ p < bytes.length, 4 ≤ bytes.length - p → u16at bytes p ≠ 0

instance (bytes : List Nat) : Decidable (NoZeroHeader bytes) := by
  unfold NoZeroHeader
  infer_instance

/-! ## Lemmas about the parse loop -/

lemma encodeFrame_length (tag : Nat) (payload : List Nat) :
    (encodeFrame tag payload).length = payload.length + 4 := by
  simp [encodeFrame]

lemma u16at_encodeFrame_zero (tag : Nat) (payload : List Nat)
    (hlen : payload.length ≤ 65531) :
    u16at (encodeFrame tag payload) 0 = payload.length + 4 := by
  have hm : (payload.length + 4) % 65536 = payload.length + 4 := Nat.mod_eq_of_lt (by omega)
  simp [encodeFrame, u16at, u16le, List.getD, hm]
  exact Nat.mod_add_div _ _

lemma u16at_encodeFrame_two (tag : Nat) (payload : List Nat)
    (htag : tag ≤ 65535) :
    u16at (encodeFrame tag payload) 2 = tag := by
  have hm : tag % 65536 = tag := Nat.mod_eq_of_lt (by omega)
  simp [encodeFrame, u16at, u16le, List.getD, hm]
  exact Nat.mod_add_div _ _

lemma handleMessage_encodeFrame (tag : Nat) (payload : List Nat)
    (htag : tag ≤ 65535) (hlen : payload.length ≤ 65531) :
    handleMessage (encodeFrame tag payload) 0 =
      { type := tag, size := (payload.length : Int), data := payload } := by
  have hdrop : (encodeFrame tag payload).drop 4 = payload := by
    simp [encodeFrame]
  simp only [handleMessage, Nat.zero_add, u16at_encodeFrame_zero tag payload hlen,
    u16at_encodeFrame_two tag payload htag, hdrop]
  have h1 : ((payload.length + 4 : Nat) : Int) - 4 = (payload.length : Int) := by
    push_cast
    ring
  have h2 : payload.length + 4 - 4 = payload.length := by
    omega
  rw [h1, h2, List.take_length]

/-- Total-parse lemma: with no zero header reachable, each loop iteration
advances the cursor, so fuel exceeding the remaining byte count reaches
the loop exit. -/
lemma parseLoop_total (bytes : List Nat) (hnz : NoZeroHeader bytes) :
    ∀ fuel pos acc, bytes.length - pos < fuel → (parseLoop fuel bytes pos acc).isSome := by
  intro fuel
  induction fuel with
  | zero => intro pos acc h; omega
  | succ n ih =>
    intro pos acc h
    simp only [parseLoop]
    by_cases h4 : 4 ≤ bytes.length - pos
    · rw [if_pos h4]
      have hzero : u16at bytes pos ≠ 0 := hnz pos (by omega) h4
      by_cases hle : u16at bytes pos ≤ bytes.length - pos
      · rw [if_pos hle]
        exact ih (pos + u16at bytes pos) _ (by omega)
      · rw [if_neg hle]
        simp
    · rw [if_neg h4]
      simp

/-- Exactness lemma: a terminating run of the loop delivers the accumulated
messages plus some frames, the final cursor equals the starting cursor plus
the total length of the delivered frames, and the loop exits in a stall
(fewer than 4 readable bytes, or a declared size exceeding them). -/
lemma parseLoop_spec (bytes : List Nat) :
    ∀ fuel pos acc msgs fin, pos ≤ bytes.length →
      parseLoop fuel bytes pos acc = some (msgs, fin) →
      ∃ extra, msgs = acc ++ extra ∧
        (fin : Int) = pos + ((extra.map (fun m => m.size + 4)).sum) ∧
        fin ≤ bytes.length ∧
        (bytes.length - fin < 4 ∨ bytes.length - fin < u16at bytes fin) := by
  intro fuel
  induction fuel with
  | zero => intro pos acc msgs fin _ h; exact absurd h (by simp [parseLoop])
  | succ n ih =>
    intro pos acc msgs fin hpos h
    simp only [parseLoop] at h
    by_cases h4 : 4 ≤ bytes.length - pos
    · rw [if_pos h4] at h
      by_cases hle : u16at bytes pos ≤ bytes.length - pos
      · rw [if_pos hle] at h
        obtain ⟨extra, hmsgs, hsum, hfin, hstall⟩ :=
          ih (pos + u16at bytes pos) (acc ++ [handleMessage bytes pos]) msgs fin (by omega) h
        refine ⟨handleMessage bytes pos :: extra, by simpa using hmsgs, ?_, hfin, hstall⟩
        have hsz : (handleMessage bytes pos).size + 4 = (u16at bytes pos : Int) := by
          simp [handleMessage]
        rw [List.map_cons, List.sum_cons, hsz, hsum]
        push_cast
        ring
      · rw [if_neg hle] at h
        obtain ⟨rfl, rfl⟩ : msgs = acc ∧ fin = pos := by
          simpa using h.symm
        exact ⟨[], by simp, by simp, hpos, Or.inr (by omega)⟩
    · rw [if_neg h4] at h
      obtain ⟨rfl, rfl⟩ : msgs = acc ∧ fin = pos := by
        simpa using h.symm
      exact ⟨[], by simp, by simp, hpos, Or.inl (by omega)⟩

/-! ## C1: round-trip framing -/

/-- C1.  Round-trip framing: for every payload of at most 65,531 bytes and
every tag in `[0, 65535]`, parsing the encoded frame delivers exactly one
message whose type equals the tag and whose data equals the payload, the
whole buffer is consumed, and the readable region is left empty. -/
theorem c1_roundtrip_framing (tag : Nat) (payload : List Nat)
    (htag : tag ≤ 65535) (hlen : payload.length ≤ 65531)
    (_hbytes : ∀ b ∈ payload, b < 256) :
    parseReadBuffer (encodeFrame tag payload) =
      some ([{ type := tag, size := (payload.length : Int), data := payload }],
            [], payload.length + 4) := by
  have hL := encodeFrame_length tag payload
  have hstep1 :
      parseLoop (payload.length + 4 + 1) (encodeFrame tag payload) 0 [] =
        parseLoop (payload.length + 4) (encodeFrame tag payload) (payload.length + 4)
          [handleMessage (encodeFrame tag payload) 0] := by
    simp only [parseLoop, hL, u16at_encodeFrame_zero tag payload hlen]
    rw [if_pos (by omega), if_pos (by omega)]
    simp
  have hstep2 :
      parseLoop (payload.length + 4) (encodeFrame tag payload) (payload.length + 4)
          [handleMessage (encodeFrame tag payload) 0] =
        some ([handleMessage (encodeFrame tag payload) 0], payload.length + 4) := by
    have hfuel : payload.length + 4 = (payload.length + 3) + 1 := by omega
    rw [hfuel]
    simp only [parseLoop, hL]
    rw [if_neg (by omega)]
  unfold parseReadBuffer
  rw [hL, hstep1, hstep2, handleMessage_encodeFrame tag payload htag hlen]
  have hdrop : (encodeFrame tag payload).drop (payload.length + 4) = [] := by
    apply List.drop_eq_nil_of_le
    omega
  simp [hdrop]

/-- Witness instantiating `c1_roundtrip_framing` at tag 7 and payload
`[1, 2, 3]`. -/
theorem c1_roundtrip_framing_witness :
    parseReadBuffer (encodeFrame 7 [1, 2, 3]) =
      some ([{ type := 7, size := (3 : Int), data := [1, 2, 3] }], [], 7) :=
  c1_roundtrip_framing 7 [1, 2, 3] (by decide) (by decide) (by decide)

/-! ## C6: termination of the frame-parse loop

A frame header declaring `total_len = 0` makes `buf += messageSize` a
no-op: the source loop re-reads the same header forever.  The claim that
the loop terminates for every buffer content is therefore false; it does
terminate once no reachable header is zero. -/

/-- C6 counterexample: on the readable bytes `[0, 0, 0, 0]` the parse loop
of `parse_read_buffer` never reaches its exit (no iteration bound makes it
finish): the declared message size 0 keeps the cursor in place. -/
theorem c6_counterexample : ¬ ParseTerminates [0, 0, 0, 0] := by
  have key : ∀ fuel acc, parseLoop fuel [0, 0, 0, 0] 0 acc = none := by
    intro fuel
    induction fuel with
    | zero => intro acc; rfl
    | succ n ih =>
      intro acc
      have h0 : u16at [0, 0, 0, 0] 0 = 0 := by decide
      simp only [parseLoop, h0]
      rw [if_pos (by decide), if_pos (by decide)]
      exact ih _
  rintro ⟨fuel, h⟩
  rw [key fuel []] at h
  simp at h

/-- C6 amended.  The frame-parse loop reaches its exit for every read-buffer
content in which no reachable 16-bit header is zero (the nonterminating
input has a zero `total_len`); it consumes exactly the bytes of the
delivered frames and leaves the trailing partial frame: the consumed count
equals the sum of the delivered total lengths, and at the exit either fewer
than 4 bytes remain or the declared size exceeds the remaining bytes. -/
theorem c6_parse_loop_terminates (bytes : List Nat) (hnz : NoZeroHeader bytes) :
    ∃ msgs fin,
      parseReadBuffer bytes = some (msgs, bytes.drop fin, fin) ∧
      (fin : Int) = ((msgs.map (fun m => m.size + 4)).sum) ∧
      fin ≤ bytes.length ∧
      (bytes.length - fin < 4 ∨ bytes.length - fin < u16at bytes fin) := by
  have htot := parseLoop_total bytes hnz (bytes.length + 1) 0 [] (by omega)
  obtain ⟨⟨msgs, fin⟩, hres⟩ := Option.isSome_iff_exists.mp htot
  obtain ⟨extra, hmsgs, hsum, hfin, hstall⟩ :=
    parseLoop_spec bytes (bytes.length + 1) 0 [] msgs fin (by omega) hres
  refine ⟨msgs, fin, ?_, ?_, hfin, hstall⟩
  · unfold parseReadBuffer
    rw [hres]
  · rw [hsum, hmsgs]
    simp

/-- Witness instantiating `c6_parse_loop_terminates` on the concrete buffer
`[5, 0, 7, 0, 9]`: one 5-byte frame, fully consumed. -/
theorem c6_parse_loop_terminates_witness :
    NoZeroHeader [5, 0, 7, 0, 9] ∧
      ∃ msgs fin,
        parseReadBuffer [5, 0, 7, 0, 9] = some (msgs, List.drop fin [5, 0, 7, 0, 9], fin) ∧
        (fin : Int) = ((msgs.map (fun m => m.size + 4)).sum) ∧
        fin ≤ 5 ∧
        (5 - fin < 4 ∨ 5 - fin < u16at [5, 0, 7, 0, 9] fin) :=
  ⟨by decide, c6_parse_loop_terminates [5, 0, 7, 0, 9] (by decide)⟩

/-! ## Dispatch table (dispatch_table.hpp)

The variadic class `dispatch_table<P1, ..., PK>` keeps one handler queue
per payload type and a single `pending_` counter in the empty-pack base.
We model the table as a list of queues indexed by the type's position in
the pack.  A handler is identified by an id; since a cancellation callback
may itself call `subscribe`, a handler carries the list of
`(type index, id)` subscriptions its body performs when it is invoked
with the cancellation error (re-subscribed handlers are inert).
Invocations are recorded as `(id, with-error flag)`; `cancel` always
passes a nonzero error code, so its invocations carry `true`. -/

structure Handler where
  id : Nat
  resub : List (Nat × Nat)
deriving Repr, DecidableEq

structure Table where
  queues : List (List Handler)
  pending : Nat
deriving Repr, DecidableEq

/-- Embedding of `dispatch_table<P,...>::subscribe` for the type at index
`k`: `queue_.emplace_back(h)` then `add_pending_handler()`. -/
def subscribeAt (t : Table) (k : Nat) (h : Handler) : Table :=
  { queues := t.queues.set k (t.queues.getD k [] ++ [h])
    pending := t.pending + 1 }

/-- Effect on the table of invoking handler `h` with the cancellation
error: the handler body performs its re-subscriptions. -/
def invokeCancel (t : Table) (h : Handler) : Table :=
  h.resub.foldl (fun acc p => subscribeAt acc p.1 { id := p.2, resub := [] }) t

/-- Embedding of one level of `dispatch_table<P, Ps...>::cancel`:
`auto q = std::move(queue_)` captures the queue, each captured handler is
invoked with the error code (possibly re-subscribing), and `queue_.clear()`
wipes whatever the callbacks put back on this type's queue.  `pending_` is
not touched (the source never calls `remove_pending_handler` here). -/
def cancelLevel (t : Table) (k : Nat) : Table × List (Nat × Bool) :=
  let q := t.queues.getD k []
  let t1 : Table := { t with queues := t.queues.set k [] }
  let r := q.foldl (fun (acc : Table × List (Nat × Bool)) h =>
    (invokeCancel acc.1 h, acc.2 ++ [(h.id, true)])) (t1, [])
  ({ r.1 with queues := r.1.queues.set k [] }, r.2)

/-- Levels are cancelled in pack order: `dispatch_table<P, Ps...>::cancel`
handles `P` and then recurses into `dispatch_table<Ps...>::cancel`. -/
def cancelLevels : Table → List Nat → Table × List (Nat × Bool)
  | t, [] => (t, [])
  | t, k :: ks =>
    let r1 := cancelLevel t k
    let r2 := cancelLevels r1.1 ks
    (r2.1, r1.2 ++ r2.2)

/-- Embedding of `dispatch_table<P1, ..., PK>::cancel`. -/
def cancel (t : Table) : Table × List (Nat × Bool) :=
  cancelLevels t (List.range t.queues.length)

/-- Embedding of `dispatch_table<>::done`: `0 == pending_`. -/
def done (t : Table) : Bool :=
  t.pending == 0

/-- All ids of handlers currently queued, in level order. -/
def allIds (t : Table) : List Nat :=
  (t.queues.map (fun q => q.map Handler.id)).flatten

/-! ## Lemmas about cancellation -/

lemma getD_set_ne {α : Type} (l : List α) (k j : Nat) (v d : α) (hne : k ≠ j) :
    (l.set k v).getD j d = l.getD j d := by
  simp [List.getD, List.getElem?_set_ne hne]

lemma invokeCancel_getD (h : Handler) (j : Nat) :
    ∀ (t : Table), (∀ p ∈ h.resub, p.1 ≠ j) →
      (invokeCancel t h).queues.getD j [] = t.queues.getD j [] := by
  unfold invokeCancel
  generalize h.resub = l
  induction l with
  | nil => intro t _; rfl
  | cons a l ih =>
    intro t hl
    rw [List.foldl_cons]
    rw [ih _ (fun p hp => hl p (List.mem_cons_of_mem a hp))]
    exact getD_set_ne _ _ _ _ _ (hl a (List.mem_cons_self a l))

lemma foldl_cancel_snd (q : List Handler) :
    ∀ (st : Table × List (Nat × Bool)),
      (q.foldl (fun acc h => (invokeCancel acc.1 h, acc.2 ++ [(h.id, true)])) st).2
        = st.2 ++ q.map (fun h => (h.id, true)) := by
  induction q with
  | nil => intro st; simp
  | cons a q ih =>
    intro st
    rw [List.foldl_cons, ih]
    simp

lemma foldl_cancel_fst_getD (q : List Handler) (k j : Nat) (hkj : k < j) :
    ∀ (st : Table × List (Nat × Bool)),
      (∀ h ∈ q, ∀ p ∈ h.resub, p.1 ≤ k) →
      (q.foldl (fun acc h => (invokeCancel acc.1 h, acc.2 ++ [(h.id, true)])) st).1.queues.getD j []
        = st.1.queues.getD j [] := by
  induction q with
  | nil => intro st _; rfl
  | cons a q ih =>
    intro st hq
    rw [List.foldl_cons]
    rw [ih _ (fun h hh => hq h (List.mem_cons_of_mem a hh))]
    exact invokeCancel_getD a j st.1
      (fun p hp => by
        have := hq a (List.mem_cons_self a q) p hp
        omega)

lemma cancelLevel_snd (t : Table) (k : Nat) :
    (cancelLevel t k).2 = (t.queues.getD k []).map (fun h => (h.id, true)) := by
  simp only [cancelLevel, foldl_cancel_snd]
  rw [List.nil_append]

lemma cancelLevel_fst_getD_gt (t : Table) (k j : Nat) (hkj : k < j)
    (hres : ∀ h ∈ t.queues.getD k [], ∀ p ∈ h.resub, p.1 ≤ k) :
    (cancelLevel t k).1.queues.getD j [] = t.queues.getD j [] := by
  simp only [cancelLevel]
  rw [getD_set_ne _ _ _ _ _ (by omega : k ≠ j)]
  rw [foldl_cancel_fst_getD _ k j hkj _ hres]
  exact getD_set_ne _ _ _ _ _ (by omega : k ≠ j)

/-- Characterization of the cancel pass: when every queued handler
re-subscribes only to its own or an earlier type, the recorded invocations
are exactly the handlers queued at the start, one per handler, in level
order, each with the error flag. -/
lemma cancelLevels_snd (ks : List Nat) :
    ∀ (t : Table), List.Pairwise (· < ·) ks →
      (∀ k ∈ ks, ∀ h ∈ t.queues.getD k [], ∀ p ∈ h.resub, p.1 ≤ k) →
      (cancelLevels t ks).2
        = (ks.map (fun k => (t.queues.getD k []).map (fun h => (h.id, true)))).flatten := by
  induction ks with
  | nil => intro t _ _; rfl
  | cons k ks ih =>
    intro t hpair hres
    have hresk := hres k (List.mem_cons_self k ks)
    have hlt : ∀ j ∈ ks, k < j := fun j hj => (List.pairwise_cons.mp hpair).1 j hj
    have hpres : ∀ j ∈ ks, (cancelLevel t k).1.queues.getD j [] = t.queues.getD j [] :=
      fun j hj => cancelLevel_fst_getD_gt t k j (hlt j hj) hresk
    simp only [cancelLevels]
    rw [cancelLevel_snd]
    rw [ih (cancelLevel t k).1 (List.pairwise_cons.mp hpair).2
      (fun j hj h hh p hp => hres j (List.mem_cons_of_mem k hj) h (by rwa [hpres j hj] at hh) p hp)]
    have hmapeq :
        ks.map (fun j => ((cancelLevel t k).1.queues.getD j []).map (fun h => (h.id, true)))
          = ks.map (fun j => (t.queues.getD j []).map (fun h => (h.id, true))) :=
      List.map_congr_left (fun j hj => by rw [hpres j hj])
    rw [hmapeq, List.map_cons, List.flatten_cons]

lemma map_getD_range {α β : Type} (l : List α) (d : α) (f : α → β) :
    (List.range l.length).map (fun k => f (l.getD k d)) = l.map f := by
  induction l with
  | nil => rfl
  | cons a l ih =>
    rw [List.length_cons, List.range_succ_eq_map, List.map_cons, List.map_map]
    have hcomp : ((fun k => f ((a :: l).getD k d)) ∘ Nat.succ) = fun k => f (l.getD k d) := by
      funext k
      simp [List.getD_cons_succ]
    rw [hcomp, ih]
    simp [List.getD_cons_zero]

/-- Full characterization of `cancel`'s invocation record under
same-or-earlier re-subscription. -/
lemma cancel_snd (t : Table)
    (hres : ∀ k < t.queues.length, ∀ h ∈ t.queues.getD k [], ∀ p ∈ h.resub, p.1 ≤ k) :
    (cancel t).2 = (t.queues.map (fun q => q.map (fun h => (h.id, true)))).flatten := by
  unfold cancel
  rw [cancelLevels_snd (List.range t.queues.length) t (List.pairwise_lt_range _)
    (fun k hk => hres k (List.mem_range.mp hk))]
  rw [map_getD_range]

lemma mem_allIds (t : Table) (k : Nat) (h : Handler)
    (hh : h ∈ t.queues.getD k []) : h.id ∈ allIds t := by
  by_cases hk : k < t.queues.length
  · rw [List.getD_eq_getElem _ _ hk] at hh
    refine List.mem_flatten.mpr ⟨(t.queues[k]).map Handler.id, ?_, ?_⟩
    · exact List.mem_map_of_mem _ (List.getElem_mem _)
    · exact List.mem_map_of_mem _ hh
  · rw [List.getD_eq_default _ _ (by omega)] at hh
    exact absurd hh (List.not_mem_nil h)

/-! ## C2: cancellation completeness

The source `cancel()` never calls `remove_pending_handler`: draining the
queues leaves `pending_` at its old value, so `done()` stays `false` even
though no subscriber remains.  The evaluation below exhibits this on a
one-type table with a single subscribed handler: the handler is invoked
exactly once with the error result, but `pending` is still 1 and `done`
is `false` after `cancel()`. -/

/-- C2 failing input evaluated: subscribe one handler (id 0) on a one-type
table, then cancel.  The handler is invoked exactly once with the
cancellation error, yet the pending counter is 1 and `done()` is false. -/
theorem c2_cancel_leaves_pending :
    (cancel (subscribeAt { queues := [[]], pending := 0 } 0 { id := 0, resub := [] })).2
        = [(0, true)] ∧
      (cancel (subscribeAt { queues := [[]], pending := 0 } 0 { id := 0, resub := [] })).1.pending
        = 1 ∧
      done (cancel (subscribeAt { queues := [[]], pending := 0 } 0
        { id := 0, resub := [] })).1 = false := by
  decide

/-! ## C4: one-shot cancellation discipline

Each level of `cancel()` does capture its own queue by move, so a handler
re-subscribing to the same type (or an earlier one) during cancellation is
not re-invoked.  But a handler subscribed during cancellation to a type
that comes later in the pack lands on a queue the recursion has not
reached yet, and that queue is captured and drained by the same pass — so
the claim as stated is false. -/

/-- C4 counterexample: on a two-type table, the sole handler (id 1)
subscribed for type 0 re-subscribes a new handler (id 2) to type 1 from
inside its cancellation callback; the same cancel pass then invokes the
new handler with the cancellation error as well. -/
theorem c4_counterexample :
    (cancel (subscribeAt { queues := [[], []], pending := 0 } 0
        { id := 1, resub := [(1, 2)] })).2
      = [(1, true), (2, true)] := by
  decide

/-- C4 amended.  The cancel pass operates per type on the subscription
list captured at the start of that type's pass, so, provided cancellation
callbacks re-subscribe only to the same type or an earlier type of the
pack: every cancel invocation carries the cancellation result, every
handler subscribed before `cancel()` is invoked exactly once and not
invoked again, and a handler newly subscribed from inside a cancellation
callback is not invoked by that same cancel pass.  (Re-subscription to a
later type of the pack is drained by the same pass, as the counterexample
shows.) -/
theorem c4_cancel_oneshot (t : Table)
    (hres : ∀ k < t.queues.length, ∀ h ∈ t.queues.getD k [], ∀ p ∈ h.resub, p.1 ≤ k)
    (hnodup : (allIds t).Nodup)
    (hfresh : ∀ k < t.queues.length, ∀ h ∈ t.queues.getD k [], ∀ p ∈ h.resub, p.2 ∉ allIds t) :
    (∀ x ∈ (cancel t).2, x.2 = true) ∧
      (∀ k h, h ∈ t.queues.getD k [] → ((cancel t).2.map Prod.fst).count h.id = 1) ∧
      (∀ k h p, h ∈ t.queues.getD k [] → p ∈ h.resub →
        p.2 ∉ (cancel t).2.map Prod.fst) := by
  have hchar := cancel_snd t hres
  have hfst : (cancel t).2.map Prod.fst = allIds t := by
    rw [hchar, List.map_flatten, List.map_map, allIds]
    congr 1
    apply List.map_congr_left
    intro q _
    show (q.map (fun h => (h.id, true))).map Prod.fst = q.map Handler.id
    rw [List.map_map]
    rfl
  refine ⟨?_, ?_, ?_⟩
  · intro x hx
    rw [hchar] at hx
    obtain ⟨l, hl, hxl⟩ := List.mem_flatten.mp hx
    obtain ⟨q, _, rfl⟩ := List.mem_map.mp hl
    obtain ⟨h, _, rfl⟩ := List.mem_map.mp hxl
    rfl
  · intro k h hh
    rw [hfst]
    exact List.count_eq_one_of_mem hnodup (mem_allIds t k h hh)
  · intro k h p hh hp
    rw [hfst]
    by_cases hk : k < t.queues.length
    · exact hfresh k hk h hh p hp
    · rw [List.getD_eq_default _ _ (by omega)] at hh
      exact absurd hh (List.not_mem_nil h)

/-- Witness instantiating `c4_cancel_oneshot` on a concrete two-type table
whose type-0 handler (id 1) re-subscribes id 5 to type 0 during
cancellation: ids 1 and 2 are each invoked exactly once and id 5 is not
invoked by the pass. -/
theorem c4_cancel_oneshot_witness :
    (((cancel ⟨[[⟨1, [(0, 5)]⟩], [⟨2, []⟩]], 2⟩).2.map Prod.fst).count 1 = 1 ∧
      ((cancel ⟨[[⟨1, [(0, 5)]⟩], [⟨2, []⟩]], 2⟩).2.map Prod.fst).count 2 = 1) ∧
      (5 : Nat) ∉ (cancel ⟨[[⟨1, [(0, 5)]⟩], [⟨2, []⟩]], 2⟩).2.map Prod.fst := by
  have hmain := c4_cancel_oneshot ⟨[[⟨1, [(0, 5)]⟩], [⟨2, []⟩]], 2⟩
    (by decide) (by decide) (by decide)
  refine ⟨⟨?_, ?_⟩, ?_⟩
  · exact hmain.2.1 0 ⟨1, [(0, 5)]⟩ (by decide)
  · exact hmain.2.1 1 ⟨2, []⟩ (by decide)
  · exact hmain.2.2 0 ⟨1, [(0, 5)]⟩ (0, 5) (by decide) (by decide)

/-! ## Session lifecycle and write path (basic_session.hpp)

The relevant `basic_session` state is the `connected_` and
`write_in_progress_` flags, the `outstanding_ops_` counter and the double
write buffer.  Operations return the successor state together with the
list of emitted effects: notifications delivered to the derived class
(`notify_connected` / `notify_disconnected`), the dead-session hook
(`handle_disconnected_session`, which `server_session` implements as
`reconnect()` to the stored remote endpoint and `basic_client_session`
as pool removal), and scheduled asio writes. -/

inductive Event where
  | notifyConnected
  | notifyDisconnected
  | deadSessionHook
  | asyncWrite (bytes : List Nat)
deriving Repr, DecidableEq

/-- Embedding of `double_writebuf` (session_buffers.hpp): two byte queues
and the index `cur_` of the active one.  `flip` hands out the active
buffer and switches; the flipped-away content stays until the write
completion clears it. -/
structure DoubleWB where
  bufA : List Nat
  bufB : List Nat
  cur : Bool
deriving Repr, DecidableEq

/-- Currently active buffer (`double_writebuf::current`). -/
def DoubleWB.current (d : DoubleWB) : List Nat :=
  if d.cur then d.bufB else d.bufA

/-- Embedding of `double_writebuf::append`. -/
def DoubleWB.append (d : DoubleWB) (bytes : List Nat) : DoubleWB :=
  if d.cur then { d with bufB := d.bufB ++ bytes } else { d with bufA := d.bufA ++ bytes }

/-- Embedding of `double_writebuf::flip`: returns the active buffer's
content and makes the second buffer active. -/
def DoubleWB.flip (d : DoubleWB) : List Nat × DoubleWB :=
  (d.current, { d with cur := !d.cur })

/-- Embedding of `double_writebuf::empty` (emptiness of the active buffer). -/
def DoubleWB.isEmptyBuf (d : DoubleWB) : Bool :=
  d.current.isEmpty

/-- State of a `basic_session` relevant to lifecycle and sending. -/
structure Session where
  connected : Bool
  write_in_progress : Bool
  outstanding_ops : Nat
  wbuf : DoubleWB
deriving Repr, DecidableEq

/-- Embedding of the no-argument `basic_session::do_write`: flip and start
an asio write when the active buffer has data (one more outstanding
operation via `schedule_operation`), otherwise clear `write_in_progress_`. -/
def do_write (s : Session) : Session × List Event :=
  if ¬ s.wbuf.isEmptyBuf then
    let r := s.wbuf.flip
    ({ s with wbuf := r.2, write_in_progress := true, outstanding_ops := s.outstanding_ops + 1 },
      [Event.asyncWrite r.1])
  else
    ({ s with write_in_progress := false }, [])

/-- Embedding of `basic_session::send(const void*, size_t)`: only when
`connected_`, append to the write buffer and start a write if none is in
flight; otherwise do nothing at all. -/
def send (s : Session) (bytes : List Nat) : Session × List Event :=
  if s.connected then
    let s1 : Session := { s with wbuf := s.wbuf.append bytes }
    if ¬ s1.write_in_progress then do_write s1 else (s1, [])
  else
    (s, [])

/-- Embedding of `basic_session::orderly_disconnect`: when still connected,
close the socket, clear `connected_` and notify the owner; then — in every
case — fire the dead-session hook when no operation is outstanding. -/
def orderly_disconnect (s : Session) : Session × List Event :=
  let r1 : Session × List Event :=
    if s.connected then
      ({ s with connected := false }, [Event.notifyDisconnected])
    else
      (s, [])
  if r1.1.outstanding_ops = 0 then
    (r1.1, r1.2 ++ [Event.deadSessionHook])
  else
    r1

/-- Embedding of `basic_session::close`. -/
def close (s : Session) : Session × List Event :=
  if s.connected then orderly_disconnect s else (s, [])

/-- Embedding of `basic_session::kill`: close the socket and clear
`connected_`, emitting nothing. -/
def kill (s : Session) : Session :=
  { s with connected := false }

/-- Completion of a scheduled asio operation with an error: the handlers in
`do_read` and `do_write` run `complete_operation()` and then, on error,
`orderly_disconnect()` (closing the socket in `kill` makes any in-flight
read or write complete with `operation_aborted`). -/
def complete_op_error (s : Session) : Session × List Event :=
  orderly_disconnect { s with outstanding_ops := s.outstanding_ops - 1 }

/-- Iterated `close()` calls, accumulating the emitted events. -/
def closeN : Nat → Session → Session × List Event
  | 0, s => (s, [])
  | n + 1, s =>
    let r1 := close s
    let r2 := closeN n r1.1
    (r2.1, r1.2 ++ r2.2)

/-! ## C3: kill() and reconnection

`kill()` itself emits nothing.  But a started session always has an
in-flight read, and `kill()`'s `socket_.close()` makes it complete with an
error; that completion runs `orderly_disconnect`, whose final
`if (!outstanding_ops_) handle_disconnected_session()` is not gated on how
the session was closed — and `server_session::handle_disconnected_session`
is `reconnect()` to the stored endpoint (a successful reconnect then
emits `notify_connected` to the owner).  So a reconnection IS initiated
after `kill()`, contradicting the claim (and `kill`'s own doc comment,
which promises no notification of the derivee). -/

/-- C3 failing input evaluated: a connected outbound session with one
outstanding read is `kill()`ed; the aborted read's completion fires the
dead-session hook (`reconnect()` on `server_session`).  By contrast,
`close()` on a quiescent session emits the one owner notification and the
same hook, as the claim's second half says. -/
theorem c3_kill_then_dead_hook :
    (complete_op_error (kill ⟨true, false, 1, ⟨[], [], false⟩⟩)).2 = [Event.deadSessionHook] ∧
      (close ⟨true, false, 0, ⟨[], [], false⟩⟩).2
        = [Event.notifyDisconnected, Event.deadSessionHook] := by
  decide

/-! ## C7: idempotent close -/

lemma close_of_not_connected (s : Session) (h : s.connected = false) :
    close s = (s, []) := by
  simp [close, h]

lemma closeN_of_not_connected (n : Nat) (s : Session) (h : s.connected = false) :
    closeN n s = (s, []) := by
  induction n with
  | zero => rfl
  | succ m ih =>
    simp [closeN, close_of_not_connected s h, ih]

lemma close_connected_events (s : Session) (h : s.connected = true) :
    (close s).1.connected = false ∧
      (close s).2.count Event.notifyDisconnected = 1 := by
  simp only [close, orderly_disconnect, h, if_true]
  by_cases hops : s.outstanding_ops = 0
  · simp [hops, List.count_cons]
  · simp [hops, List.count_cons]

/-- C7.  Idempotent close: starting from a connected session, any number
`n ≥ 1` of consecutive `close()` calls delivers the owner's disconnected
notification exactly once — the first call fires it and flips
`connected_`, and every later call, seeing `connected_ == false`, is a
no-op. -/
theorem c7_idempotent_close (s : Session) (hconn : s.connected = true) (n : Nat) (hn : 1 ≤ n) :
    (closeN n s).2.count Event.notifyDisconnected = 1 := by
  obtain ⟨m, rfl⟩ : ∃ m, n = m + 1 := ⟨n - 1, by omega⟩
  have h1 := close_connected_events s hconn
  simp only [closeN]
  rw [closeN_of_not_connected m _ h1.1]
  simpa using h1.2

/-- Witness instantiating `c7_idempotent_close`: three consecutive closes
on a concrete connected session notify exactly once. -/
theorem c7_idempotent_close_witness :
    (⟨true, false, 0, ⟨[], [], false⟩⟩ : Session).connected = true ∧ 1 ≤ 3 ∧
      (closeN 3 ⟨true, false, 0, ⟨[], [], false⟩⟩).2.count Event.notifyDisconnected = 1 :=
  ⟨rfl, by decide, c7_idempotent_close ⟨true, false, 0, ⟨[], [], false⟩⟩ rfl 3 (by decide)⟩

/-! ## C10: send on a disconnected session -/

/-- C10.  Sending on a session whose connected flag is false is a silent
no-op: the state (write buffers, write_in_progress, outstanding
operations) is returned unchanged and no effect — no buffer append, no
scheduled write, no error — is emitted. -/
theorem c10_send_disconnected_noop (s : Session) (bytes : List Nat)
    (h : s.connected = false) :
    send s bytes = (s, []) := by
  simp [send, h]

/-- Witness instantiating `c10_send_disconnected_noop` on a concrete
disconnected session with nonempty buffers and a nonempty payload. -/
theorem c10_send_disconnected_noop_witness :
    (⟨false, true, 2, ⟨[1], [2], true⟩⟩ : Session).connected = false ∧
      send ⟨false, true, 2, ⟨[1], [2], true⟩⟩ [9, 9]
        = (⟨false, true, 2, ⟨[1], [2], true⟩⟩, []) :=
  ⟨rfl, c10_send_disconnected_noop ⟨false, true, 2, ⟨[1], [2], true⟩⟩ [9, 9] rfl⟩

/-! ## Protocol registry (meta_protocol.hpp)

A protocol is the ordered list of payload types; we identify each C++
type with a distinct natural number.  `proto_base<N, Message, Ms...>`
declares `identify(tag<Message>) = N` and inherits the rest, so
resolution finds the first occurrence, offset by the starting index `N`
(`protocol<Ts...> = proto_base<0, Ts...>`).  A type not present in the
pack leaves only the undefined nullary `identify()`, a compile-time
error — modelled as `none`. -/

/-- Embedding of `meta::proto_base<N, Ms...>::identify`. -/
def identifyFrom (n : Nat) : List Nat → Nat → Option Nat
  | [], _ => none
  | m :: ms, T => if T = m then some n else identifyFrom (n + 1) ms T

/-- Embedding of `meta::identify<protocol<Ts...>, T>()`. -/
def identify (proto : List Nat) (T : Nat) : Option Nat :=
  identifyFrom 0 proto T

/-- Embedding of `meta::subprotocol<Protocol, Ms...>::identify`: for a
member type the result delegates to the parent protocol's `identify`;
for a non-member it is a compile-time error (`none`). -/
def subIdentify (parent : List Nat) : List Nat → Nat → Option Nat
  | [], _ => none
  | m :: ms, T => if T = m then identify parent T else subIdentify parent ms T

lemma identifyFrom_get (ts : List Nat) :
    ∀ (n i : Nat) (h : i < ts.length), ts.Nodup →
      identifyFrom n ts (ts.get ⟨i, h⟩) = some (n + i) := by
  induction ts with
  | nil => intro n i h _; exact absurd h (by simp)
  | cons a ts ih =>
    intro n i h hnodup
    cases i with
    | zero => simp [identifyFrom]
    | succ j =>
      have hget : (a :: ts).get ⟨j + 1, h⟩ = ts.get ⟨j, by simpa using h⟩ := rfl
      have hmem : ts.get ⟨j, by simpa using h⟩ ∈ ts := List.get_mem ts _ _
      have hne : ts.get ⟨j, by simpa using h⟩ ≠ a := by
        intro heq
        exact (List.nodup_cons.mp hnodup).1 (heq ▸ hmem)
      rw [hget]
      simp only [identifyFrom, if_neg hne]
      rw [ih (n + 1) j (by simpa using h) (List.nodup_cons.mp hnodup).2]
      congr 1
      omega

/-- C8.  Tag assignment: in a protocol declared as the ordered type list,
the i-th type identifies to tag i; and identifying a member type within a
subprotocol yields the parent protocol's tag for it (tags are preserved,
not re-compacted). -/
theorem c8_tag_assignment :
    (∀ (ts : List Nat) (i : Nat) (h : i < ts.length), ts.Nodup →
        identify ts (ts.get ⟨i, h⟩) = some i) ∧
      (∀ (parent subs : List Nat) (T : Nat), T ∈ subs →
        subIdentify parent subs T = identify parent T) := by
  constructor
  · intro ts i h hnodup
    have := identifyFrom_get ts 0 i h hnodup
    simpa [identify] using this
  · intro parent subs T hmem
    induction subs with
    | nil => exact absurd hmem (List.not_mem_nil T)
    | cons m ms ih =>
      by_cases hT : T = m
      · simp [subIdentify, hT]
      · have : T ∈ ms := by
          rcases List.mem_cons.mp hmem with h1 | h1
          · exact absurd h1 hT
          · exact h1
        simp [subIdentify, hT, ih this]

/-- Witness instantiating `c8_tag_assignment` on the protocol
`(10, 20, 30)` and the subprotocol `(30)`. -/
theorem c8_tag_assignment_witness :
    identify [10, 20, 30] 20 = some 1 ∧
      subIdentify [10, 20, 30] [30] 30 = identify [10, 20, 30] 30 := by
  constructor
  · have h := c8_tag_assignment.1 [10, 20, 30] 1 (by decide) (by decide)
    simpa using h
  · exact c8_tag_assignment.2 [10, 20, 30] [30] 30 (by decide)

/-! ## Rolling read buffer (session_buffers.hpp) -/

/-- Embedding of `rolling_buffer`: `head_`, `tail_` and the backing
`std::vector<uint8_t>`. -/
structure RollingBuffer where
  head : Nat
  tail : Nat
  buf : List Nat
deriving Repr, DecidableEq

/-- Embedding of `std::vector::resize`: truncate, or pad with zero bytes. -/
def vresize (v : List Nat) (n : Nat) : List Nat :=
  if n ≤ v.length then v.take n else v ++ List.replicate (n - v.length) 0

/-- Embedding of `rolling_buffer::capacity` (`buf_.size()`). -/
def RollingBuffer.capacity (b : RollingBuffer) : Nat :=
  b.buf.length

/-- Embedding of `rolling_buffer::size` (`head_ - tail_`). -/
def RollingBuffer.size (b : RollingBuffer) : Nat :=
  b.head - b.tail

/-- Readable region of the buffer: the bytes in `[tail, head)`. -/
def RollingBuffer.readable (b : RollingBuffer) : List Nat :=
  (b.buf.drop b.tail).take (b.head - b.tail)

/-- Embedding of `rolling_buffer::compact`: memmove the live bytes
`[tail, head)` to offset 0 (bytes past the moved region keep their old
values), then `head_ -= tail_; tail_ = 0`. -/
def RollingBuffer.compact (b : RollingBuffer) : RollingBuffer :=
  { head := b.head - b.tail
    tail := 0
    buf := (b.buf.drop b.tail).take (b.head - b.tail) ++ b.buf.drop (b.head - b.tail) }

/-- Embedding of `rolling_buffer::grow_capacity`: compact when `tail_ > 0`;
otherwise, when `head_ == capacity()`, double the backing vector
(`resize(head_)` then `resize(prev * 2)`); otherwise do nothing. -/
def RollingBuffer.grow_capacity (b : RollingBuffer) : RollingBuffer :=
  if 0 < b.tail then
    b.compact
  else if b.head = b.capacity then
    let prev := b.buf.length
    { b with buf := vresize (vresize b.buf b.head) (prev * 2) }
  else
    b

lemma vresize_length (v : List Nat) (n : Nat) : (vresize v n).length = n := by
  unfold vresize
  by_cases h : n ≤ v.length
  · rw [if_pos h]
    simp [List.length_take]
    omega
  · rw [if_neg h]
    simp [List.length_replicate]
    omega

lemma compact_spec (b : RollingBuffer) (hth : b.tail ≤ b.head) (hhc : b.head ≤ b.capacity) :
    b.compact.capacity = b.capacity ∧ b.compact.size = b.size ∧
      b.compact.readable = b.readable := by
  unfold RollingBuffer.capacity at hhc
  have hA : ((b.buf.drop b.tail).take (b.head - b.tail)).length = b.head - b.tail := by
    simp [List.length_take, List.length_drop]
    omega
  refine ⟨?_, ?_, ?_⟩
  · unfold RollingBuffer.compact RollingBuffer.capacity
    simp only [List.length_append, List.length_drop, hA]
    omega
  · unfold RollingBuffer.compact RollingBuffer.size
    simp
  · unfold RollingBuffer.compact RollingBuffer.readable
    simp only [Nat.sub_zero, List.drop_zero]
    rw [List.take_append_of_le_length (le_of_eq hA.symm),
      List.take_of_length_le (le_of_eq hA)]

lemma double_branch_buf (b : RollingBuffer) (hhead : b.head = b.buf.length) :
    vresize (vresize b.buf b.head) (b.buf.length * 2) = b.buf ++ List.replicate b.buf.length 0 := by
  have h1 : vresize b.buf b.head = b.buf := by
    unfold vresize
    rw [if_pos (by omega), hhead, List.take_length]
  rw [h1]
  unfold vresize
  by_cases h : b.buf.length * 2 ≤ b.buf.length
  · have hz : b.buf = [] := List.length_eq_zero.mp (by omega)
    simp [hz]
  · rw [if_neg h]
    congr 1
    congr 1
    omega

/-- C9.  Rolling read-buffer growth policy: `grow_capacity()` compacts
(moves the live bytes `[tail, head)` to offset 0 and zeroes the tail
index) exactly when `tail > 0`, keeping the capacity; it doubles the
capacity exactly when `tail == 0` and `head == capacity`, keeping head
and tail; otherwise it changes nothing; and in every case the size
`head - tail` and the readable byte content are unchanged. -/
theorem c9_grow_capacity (b : RollingBuffer) (hth : b.tail ≤ b.head)
    (hhc : b.head ≤ b.capacity) :
    (0 < b.tail →
      b.grow_capacity = b.compact ∧ b.grow_capacity.tail = 0 ∧
        b.grow_capacity.capacity = b.capacity) ∧
      (b.tail = 0 → b.head = b.capacity →
        b.grow_capacity.capacity = 2 * b.capacity ∧
          b.grow_capacity.head = b.head ∧ b.grow_capacity.tail = b.tail) ∧
      (b.tail = 0 → b.head ≠ b.capacity → b.grow_capacity = b) ∧
      (b.grow_capacity.size = b.size ∧ b.grow_capacity.readable = b.readable) := by
  by_cases htail : 0 < b.tail
  · have hgc : b.grow_capacity = b.compact := by
      unfold RollingBuffer.grow_capacity
      rw [if_pos htail]
    have hspec := compact_spec b hth hhc
    refine ⟨fun _ => ⟨hgc, by rw [hgc]; rfl, by rw [hgc]; exact hspec.1⟩,
      fun h0 _ => absurd h0 (by omega), fun h0 _ => absurd h0 (by omega),
      by rw [hgc]; exact ⟨hspec.2.1, hspec.2.2⟩⟩
  · have htail0 : b.tail = 0 := by omega
    by_cases hhead : b.head = b.capacity
    · have hgc : b.grow_capacity =
          { b with buf := b.buf ++ List.replicate b.buf.length 0 } := by
        unfold RollingBuffer.grow_capacity
        rw [if_neg htail, if_pos hhead]
        simp only [double_branch_buf b (by rw [hhead]; rfl)]
      have hcap : b.grow_capacity.capacity = 2 * b.capacity := by
        rw [hgc]
        unfold RollingBuffer.capacity
        simp [List.length_append, List.length_replicate]
        omega
      refine ⟨fun h0 => absurd h0 htail, fun _ _ => ⟨hcap, by rw [hgc], by rw [hgc]⟩,
        fun _ h0 => absurd hhead h0, ⟨by rw [hgc]; rfl, ?_⟩⟩
      rw [hgc]
      unfold RollingBuffer.readable
      simp only [htail0, Nat.sub_zero, List.drop_zero]
      have hhead2 : b.head = b.buf.length := by rw [hhead]; rfl
      rw [hhead2, List.take_left, List.take_length]
    · have hgc : b.grow_capacity = b := by
        unfold RollingBuffer.grow_capacity
        rw [if_neg htail, if_neg hhead]
      exact ⟨fun h0 => absurd h0 htail, fun _ h0 => absurd h0 hhead,
        fun _ _ => hgc, by rw [hgc]; exact ⟨rfl, rfl⟩⟩

/-- Witness instantiating `c9_grow_capacity` on a concrete buffer with
`head = 3`, `tail = 1`, capacity 4: the call compacts and the readable
content is unchanged. -/
theorem c9_grow_capacity_witness :
    ((⟨3, 1, [9, 8, 7, 6]⟩ : RollingBuffer).grow_capacity
        = (⟨3, 1, [9, 8, 7, 6]⟩ : RollingBuffer).compact) ∧
      (⟨3, 1, [9, 8, 7, 6]⟩ : RollingBuffer).grow_capacity.readable
        = (⟨3, 1, [9, 8, 7, 6]⟩ : RollingBuffer).readable :=
  ⟨((c9_grow_capacity ⟨3, 1, [9, 8, 7, 6]⟩ (by decide) (by decide)).1 (by decide)).1,
    (c9_grow_capacity ⟨3, 1, [9, 8, 7, 6]⟩ (by decide) (by decide)).2.2.2.2⟩

/-! ## Server configuration (server.cpp)

`run_server` reads its options with `get_opt`, which falls back to an
explicit default when the key is absent: `Ip` defaults to `127.0.0.1`
and `Port` defaults to the string `"65535"`, which `lexical_cast` then
parses.  A missing `Port` therefore does not fail — the server binds
port 65535 and runs normally; only an unparsable `Port` value throws. -/

/-- Embedding of `protoserv::Options` (`std::map<std::string, std::string>`,
here an association list with unique keys). -/
abbrev Options := List (String × String)

/-- Embedding of `get_opt` (server.cpp): the stored value when the key is
present, the supplied default otherwise. -/
def get_opt (opts : Options) (key : String) (default_value : String) : String :=
  match opts.find? (fun p => p.1 == key) with
  | some p => p.2
  | none => default_value

/-- Embedding of `boost::lexical_cast<uint16_t>` on a decimal string:
the parsed value, or `none` (a thrown `bad_lexical_cast`) on a
non-numeric string or a value exceeding 65535. -/
def lexical_cast_u16 (s : String) : Option Nat :=
  if !s.data.isEmpty && s.data.all Char.isDigit then
    let v := s.data.foldl (fun acc c => acc * 10 + (c.toNat - 48)) 0
    if v ≤ 65535 then some v else none
  else
    none

/-- Embedding of the configuration phase of `app_server::run_server`:
resolve `Ip` and `Port` with their defaults and parse the port; an
exception from `lexical_cast` is the only failure. -/
def run_server_config (opts : Options) : Except String (String × Nat) :=
  let ip := get_opt opts "Ip" "127.0.0.1"
  let port_str := get_opt opts "Port" "65535"
  match lexical_cast_u16 port_str with
  | some port => Except.ok (ip, port)
  | none => Except.error "bad lexical cast"

/-- C5 counterexample: on the empty options map — which contains no
`"Port"` key — `run_server`'s configuration phase succeeds with
`Ip = 127.0.0.1` and port 65535 instead of failing with a configuration
error. -/
theorem c5_counterexample :
    run_server_config [] = Except.ok ("127.0.0.1", 65535) := by
  rfl

/-- C5 amended.  The `Port` option is not required: for every options map
without a `"Port"` key, `run_server` defaults the port string to
`"65535"`, parses it successfully and proceeds to bind with port 65535;
`Ip` defaults to `127.0.0.1` when absent. -/
theorem c5_port_defaults (opts : Options)
    (hport : opts.find? (fun p => p.1 == "Port") = none) :
    run_server_config opts = Except.ok (get_opt opts "Ip" "127.0.0.1", 65535) ∧
      (opts.find? (fun p => p.1 == "Ip") = none →
        get_opt opts "Ip" "127.0.0.1" = "127.0.0.1") := by
  constructor
  · have hps : get_opt opts "Port" "65535" = "65535" := by
      unfold get_opt
      rw [hport]
    simp only [run_server_config]
    rw [hps]
    rfl
  · intro hip
    unfold get_opt
    rw [hip]

/-- Witness instantiating `c5_port_defaults` on a map holding only an
unrelated key. -/
theorem c5_port_defaults_witness :
    ([("Foo", "1")] : Options).find? (fun p => p.1 == "Port") = none ∧
      (run_server_config [("Foo", "1")]
          = Except.ok (get_opt [("Foo", "1")] "Ip" "127.0.0.1", 65535) ∧
        (([("Foo", "1")] : Options).find? (fun p => p.1 == "Ip") = none →
          get_opt [("Foo", "1")] "Ip" "127.0.0.1" = "127.0.0.1")) :=
  ⟨rfl, c5_port_defaults [("Foo", "1")] rfl⟩

end Protoserv
